import Mathlib

/-!
# Verification of the `notr` synchronization decision protocol

Shallow embedding of `src/notr/sync.py` (the sync orchestrator of the `notr`
note-taking application) together with theorems checking the natural-language
specification against it.

The orchestrator's collaborators (`DatabaseManager`, `Backend`, the merge
collaborator, the progress reporter and the error classes) live in modules of
the repository that are not part of the embedded sources; where a claim needs
their behaviour they are modelled from the spec's collaborator contracts (§6)
and noted as such on the definition.  All decisions of the orchestrator itself
(branching, ordering, state updates, cleanup) are translated line by line from
`sync.py`.
-/

namespace Notr


/-- Modelled from the spec (§3): `SyncDirection` is defined in
`backends/base.py`, outside the embedded sources; its three values are
PULL, PUSH and BOTH. -/
inductive SyncDirection
  | pull
  | push
  | both
deriving DecidableEq

/-- Modelled from the spec (§3): `MergeStats` is produced by the external merge
collaborator (`merge.DatabaseMerger`); fields are the four counters the
orchestrator reads. -/
structure MergeStats where
  local_changes : Nat
  remote_changes : Nat
  notes_merged : Nat
  notes_deleted : Nat
deriving DecidableEq

/-- Modelled from the spec (§3) and the construction site at sync.py
lines 117-125: the value returned by a successful sync call. -/
structure SyncResult where
  uploaded : Bool
  downloaded : Bool
  message : String
  merged_notes : Nat
  deleted_notes : Nat
  local_changes : Nat
  remote_changes : Nat
deriving DecidableEq

/-! ## Decimal rendering and Python string primitives

`_format_message` builds its clauses with f-strings (`f"merged {n} notes"`),
joins them with `", ".join` and applies `str.capitalize`.  These Python
primitives are modelled here at the character level. -/

/-- The character for the decimal digit `d`. -/
def digitChar (d : Nat) : Char := Char.ofNat (48 + d)

/-- Accumulator loop for the decimal representation of a natural number.
The first argument is fuel; `n` itself is always enough fuel because the
value shrinks by a factor of ten each step. -/
def natReprAux : Nat → Nat → List Char → List Char
  | 0, _, acc => acc
  | fuel + 1, n, acc =>
    if n = 0 then acc
    else natReprAux fuel (n / 10) (digitChar (n % 10) :: acc)

/-- Model of Python `str(int)` on natural numbers: decimal representation. -/
def natRepr (n : Nat) : String :=
  if n = 0 then "0" else ⟨natReprAux n n []⟩

/-- Model of Python `str.capitalize` (sync.py line 191): the first character is
upper-cased and every later character is lower-cased. -/
def pyCapitalize (s : String) : String :=
  match s.data with
  | [] => s
  | c :: cs => ⟨c.toUpper :: cs.map Char.toLower⟩

/-- Model of Python `", ".join` (sync.py line 191). -/
def joinComma : List String → String
  | [] => ""
  | [s] => s
  | s :: rest => s ++ ", " ++ joinComma rest

/-- `SyncService._format_message` (sync.py lines 178-191), translated
clause by clause; Python truthiness of a counter is `≠ 0`. -/
def formatMessage (stats : MergeStats) (uploaded downloaded : Bool) : String :=
  let parts : List String := []
  let parts := if uploaded then parts ++ ["uploaded changes"] else parts
  let parts := if downloaded then parts ++ ["downloaded changes"] else parts
  let parts :=
    if stats.notes_merged ≠ 0 then
      parts ++ ["merged " ++ natRepr stats.notes_merged ++ " notes"]
    else parts
  let parts :=
    if stats.notes_deleted ≠ 0 then
      parts ++ ["propagated " ++ natRepr stats.notes_deleted ++ " deletions"]
    else parts
  if parts = [] then "No changes detected" else pyCapitalize (joinComma parts)

/-- Capitalization as the spec words it (§4.3): "capitalized at the start" —
only the first character is changed. -/
def capitalizeFirst (s : String) : String :=
  match s.data with
  | [] => s
  | c :: cs => ⟨c.toUpper :: cs⟩

/-- The formatter as §4.3 of the spec describes it: an ordered list of clauses
joined with ", ", capitalized at the start, with the fixed fallback message.
Written from the spec's words, to be compared with `formatMessage`. -/
def specFormatMessage (uploaded downloaded : Bool) (stats : MergeStats) : String :=
  let parts : List String :=
    (if uploaded then ["uploaded changes"] else []) ++
    (if downloaded then ["downloaded changes"] else []) ++
    (if stats.notes_merged ≠ 0 then
      ["merged " ++ natRepr stats.notes_merged ++ " notes"] else []) ++
    (if stats.notes_deleted ≠ 0 then
      ["propagated " ++ natRepr stats.notes_deleted ++ " deletions"] else [])
  if parts = [] then "No changes detected" else capitalizeFirst (joinComma parts)

/-! Supporting lemmas: every character that can appear after the first position
of a formatted message is unchanged by lower-casing, so Python's `capitalize`
(which lower-cases the tail) agrees with the spec's "capitalize the start". -/

/-- All characters of the list are fixed points of `Char.toLower`. -/
def lowerStable (l : List Char) : Prop := ∀ c ∈ l, c.toLower = c

/-! ## The digest utility (`_file_digest`, sync.py lines 168-176)

The file is represented by its content (`none` when the path does not exist);
`dHash` stands for the SHA-256 hex function.  Modelled from the spec: `hashlib`
is the Python standard library, outside the repository; the spec (§2, glossary)
describes it as a stable content fingerprint of a byte sequence.  The running
hash object accumulates the bytes fed to `update`. -/

/-- The read size of the digest loop: `handle.read(1024 * 1024)`
(sync.py line 174). -/
def chunkSize : Nat := 1024 * 1024

/-- Loop of the chunked read, with explicit fuel; the content's length is
always enough fuel because every round drops at least one byte. -/
def readChunksGo : Nat → List Nat → List (List Nat)
  | 0, _ => []
  | fuel + 1, content =>
    if content = [] then []
    else content.take chunkSize :: readChunksGo fuel (content.drop chunkSize)

/-- The chunks the read loop of `_file_digest` sees: successive slices of at
most `chunkSize` bytes, ending when the read returns the empty chunk. -/
def readChunks (content : List Nat) : List (List Nat) :=
  readChunksGo content.length content

/-- Modelled from the spec: running state of a `hashlib.sha256()` object — the
bytes fed so far. -/
structure HashState where
  fed : List Nat
deriving DecidableEq

/-- `sha.update(chunk)`: feed one chunk. -/
def HashState.update (s : HashState) (chunk : List Nat) : HashState :=
  ⟨s.fed ++ chunk⟩

/-- `SyncService._file_digest` (sync.py lines 168-176): `none` when the path
does not exist, otherwise the hex digest of the bytes fed chunk by chunk. -/
def fileDigest (dHash : List Nat → String) (file : Option (List Nat)) :
    Option String :=
  match file with
  | none => none
  | some content =>
    some (dHash ((readChunks content).foldl HashState.update ⟨[]⟩).fed)

/-! ## The sync orchestrator (`SyncService.sync`, sync.py lines 32-135)

The orchestrator's own logic is translated line by line.  Its collaborators
are external to the embedded sources and enter through an environment record:
the backend's fetch and upload outcomes, the initial content of the local
store file, the merge collaborator's report and resulting logical contents,
the success or failure of each store operation, and the clock.  Each call of
a collaborator is recorded as an event in a trace, in invocation order, so
the ordering claims can be stated over it. -/

/-- One observable step of a sync call, recorded in invocation order. -/
inductive Ev
  | digestLocalBefore
  | download
  | ensureInit
  | merge
  | digestRemote
  | checkpointLocal
  | checkpointRemote
  | upload
  | replaceLocal
  | checkpointAfterReplace
  | setMeta (key value : String)
  | unlinkWorkFile
  | removeWorkDir
deriving DecidableEq

/-- Modelled from the spec (§7): the error kinds of a sync call.  The error
classes live in `errors.py`, outside the embedded sources; the raise at
sync.py line 46 is the spec's `RemoteMissingForPullError`, backend failures
are transport errors, store failures propagate unmodified, and a stat call on
a missing file raises an OS error (sync.py line 56). -/
inductive Err
  | transport (msg : String)
  | remoteMissingForPull
  | store (msg : String)
  | osError (msg : String)
deriving DecidableEq

/-- Modelled from the spec (§6): one call's worth of collaborator behaviour.
`download` is the backend fetch: a transport error, `ok none` (no remote
snapshot), or `ok (some c)` (snapshot with content `c` copied into the
workspace file).  `mergeRes` is the merge collaborator's outcome: its
statistics and the logical contents of the two stores after the merge (the
merge writes through the stores' durability logs, so the on-disk bytes are
unchanged until a checkpoint — spec glossary, "Checkpoint").  The remaining
fields give each fallible store/backend operation's outcome, and `now` is the
clock reading used by `current_timestamp` (sync.py lines 18-19). -/
structure Env where
  localBytes0 : Option (List Nat)
  localLogical0 : List Nat
  metadata0 : List (String × String)
  download : Except String (Option (List Nat))
  ensureInitRes : Except String Unit
  initRemote : List Nat
  mergeRes : Except String (MergeStats × List Nat × List Nat)
  checkpointLocalRes : Except String Unit
  checkpointRemoteRes : Except String Unit
  uploadRes : Except String Unit
  replaceRes : Except String Unit
  checkpointLocal2Res : Except String Unit
  metaAtRes : Except String Unit
  metaDirRes : Except String Unit
  now : String

/-- `current_timestamp()` (sync.py lines 18-19).  Modelled from the spec:
`datetime.now(timezone.utc).isoformat()` is an external clock reading,
supplied by the environment. -/
def currentTimestamp (env : Env) : String := env.now

/-- State threaded through a sync call: the on-disk bytes of the local store
file and of the workspace file (`none` = the file does not exist), whether
the workspace directory exists, the logical contents of the two stores (file
plus unflushed durability log), the local store's metadata (newest entry
first), the bytes most recently handed to the backend's upload, and the
event trace. -/
structure St where
  localBytes : Option (List Nat)
  localLogical : List Nat
  workBytes : Option (List Nat)
  workDir : Bool
  remoteLogical : List Nat
  metadata : List (String × String)
  uploadedBytes : Option (List Nat)
  trace : List Ev
deriving DecidableEq

/-- Record one event at the end of the trace. -/
def emit (e : Ev) (st : St) : St := { st with trace := st.trace ++ [e] }

/-- State at the top of the `try` block: the workspace directory exists
(line 34), the workspace file does not yet, and the digest of the local store
file has just been taken (line 40). -/
def initialState (env : Env) : St :=
  { localBytes := env.localBytes0
    localLogical := env.localLogical0
    workBytes := none
    workDir := true
    remoteLogical := []
    metadata := env.metadata0
    uploadedBytes := none
    trace := [Ev.digestLocalBefore] }

/-- Lines 100-125: write the two metadata keys, build the message and the
`SyncResult`. -/
def syncMetaPhase (env : Env) (stats : MergeStats) (uploaded downloaded : Bool)
    (st : St) : Except Err SyncResult × St :=
  let st := emit (Ev.setMeta "last_sync_at" (currentTimestamp env)) st
  match env.metaAtRes with
  | Except.error m => (Except.error (Err.store m), st)
  | Except.ok _ =>
    let st := { st with metadata := ("last_sync_at", currentTimestamp env) :: st.metadata }
    let dirLabel := if uploaded then "upload" else if downloaded then "download" else "noop"
    let st := emit (Ev.setMeta "last_sync_direction" dirLabel) st
    match env.metaDirRes with
    | Except.error m => (Except.error (Err.store m), st)
    | Except.ok _ =>
      let st := { st with metadata := ("last_sync_direction", dirLabel) :: st.metadata }
      (Except.ok
        { uploaded := uploaded
          downloaded := downloaded
          message := formatMessage stats uploaded downloaded
          merged_notes := stats.notes_merged
          deleted_notes := stats.notes_deleted
          local_changes := stats.local_changes
          remote_changes := stats.remote_changes }, st)

/-- Lines 87-98: the digest-driven fallback replace of the local store. -/
def syncFallbackPhase (env : Env) (direction : SyncDirection)
    (remoteExists : Bool) (localDigB remoteDig : Option String)
    (stats : MergeStats) (uploaded downloaded : Bool) (st : St) :
    Except Err SyncResult × St :=
  if downloaded = false ∧ (direction = SyncDirection.pull ∨ direction = SyncDirection.both)
      ∧ remoteExists = true ∧ remoteDig ≠ none ∧ remoteDig ≠ localDigB then
    let st := emit Ev.replaceLocal st
    match env.replaceRes with
    | Except.error m => (Except.error (Err.store m), st)
    | Except.ok _ =>
      let st := { st with localBytes := st.workBytes,
                          localLogical := st.workBytes.getD [] }
      let st := emit Ev.checkpointAfterReplace st
      match env.checkpointLocal2Res with
      | Except.error m => (Except.error (Err.store m), st)
      | Except.ok _ =>
        let st := { st with localBytes := some st.localLogical }
        syncMetaPhase env stats uploaded true st
  else
    syncMetaPhase env stats uploaded downloaded st

/-- Lines 71-85: initialize the `uploaded`/`downloaded` flags and decide the
upload. -/
def syncUploadPhase (env : Env) (direction : SyncDirection)
    (remoteExists : Bool) (localDigB remoteDig : Option String)
    (stats : MergeStats) (st : St) : Except Err SyncResult × St :=
  let downloaded := decide (0 < stats.local_changes)
  if (direction = SyncDirection.push ∨ direction = SyncDirection.both)
      ∧ ((0 < stats.remote_changes ∨ remoteExists = false)
         ∨ direction = SyncDirection.push) then
    let st := emit Ev.upload st
    match env.uploadRes with
    | Except.error m => (Except.error (Err.transport m), st)
    | Except.ok _ =>
      let st := { st with uploadedBytes := st.workBytes }
      syncFallbackPhase env direction remoteExists localDigB remoteDig stats
        true downloaded st
  else
    syncFallbackPhase env direction remoteExists localDigB remoteDig stats
      false downloaded st

/-- Lines 49-69: open and initialize the remote store, report sizes (which
stats the local file, line 56), run the merge, take the post-merge digest of
the workspace file (only when the remote existed), then checkpoint both
stores. -/
def syncMergePhase (dHash : List Nat → String) (env : Env)
    (direction : SyncDirection) (remoteExists : Bool)
    (localDigB : Option String) (st : St) : Except Err SyncResult × St :=
  let st := emit Ev.ensureInit st
  match env.ensureInitRes with
  | Except.error m => (Except.error (Err.store m), st)
  | Except.ok _ =>
    let st := { st with workBytes := some (st.workBytes.getD env.initRemote),
                        remoteLogical := st.workBytes.getD env.initRemote }
    match st.localBytes with
    | none => (Except.error (Err.osError "stat"), st)
    | some _ =>
      let st := emit Ev.merge st
      match env.mergeRes with
      | Except.error m => (Except.error (Err.store m), st)
      | Except.ok (stats, newLocal, newRemote) =>
        let st := { st with localLogical := newLocal, remoteLogical := newRemote }
        let p :=
          if remoteExists then
            let st := emit Ev.digestRemote st
            (fileDigest dHash st.workBytes, st)
          else (none, st)
        let remoteDig := p.1
        let st := emit Ev.checkpointLocal p.2
        match env.checkpointLocalRes with
        | Except.error m => (Except.error (Err.store m), st)
        | Except.ok _ =>
          let st := { st with localBytes := some st.localLogical }
          let st := emit Ev.checkpointRemote st
          match env.checkpointRemoteRes with
          | Except.error m => (Except.error (Err.store m), st)
          | Except.ok _ =>
            let st := { st with workBytes := some st.remoteLogical }
            syncUploadPhase env direction remoteExists localDigB remoteDig stats st

/-- Lines 43-46: fetch the remote snapshot and fail a pull when it is
missing. -/
def syncBody (dHash : List Nat → String) (env : Env)
    (direction : SyncDirection) (localDigB : Option String) (st : St) :
    Except Err SyncResult × St :=
  let st := emit Ev.download st
  match env.download with
  | Except.error m => (Except.error (Err.transport m), st)
  | Except.ok dl =>
    let st := { st with workBytes := dl }
    if direction = SyncDirection.pull ∧ dl.isSome = false then
      (Except.error Err.remoteMissingForPull, st)
    else
      syncMergePhase dHash env direction dl.isSome localDigB st

/-- Lines 126-135: the `finally` block.  The workspace file is unlinked when
present; the directory removal (`rmdir`) succeeds only on an empty directory
and a failure is swallowed (`except OSError: pass`). -/
def cleanup (st : St) : St :=
  let st :=
    if st.workBytes.isSome then
      { st with workBytes := none, trace := st.trace ++ [Ev.unlinkWorkFile] }
    else st
  if st.workDir then
    if st.workBytes.isSome then st
    else { st with workDir := false, trace := st.trace ++ [Ev.removeWorkDir] }
  else st

/-- `SyncService.sync` (sync.py lines 32-135): digest of the local file before
anything else (line 40), the `try` body, and the unconditional cleanup. -/
def sync (dHash : List Nat → String) (env : Env) (direction : SyncDirection) :
    Except Err SyncResult × St :=
  let r := syncBody dHash env direction (fileDigest dHash env.localBytes0)
    (initialState env)
  (r.1, cleanup r.2)

/-! ### Observations of the environment used to state the claims -/

/-- Whether the backend reported an existing remote snapshot. -/
def remoteExistsOf (env : Env) : Bool :=
  match env.download with
  | Except.ok (some _) => true
  | _ => false

/-- The digest taken of the local store file before the fetch (line 40). -/
def localDigestBeforeOf (dHash : List Nat → String) (env : Env) : Option String :=
  fileDigest dHash env.localBytes0

/-- The post-merge digest of the workspace file (line 65): taken only when the
remote existed, in which case the workspace file still holds the fetched bytes
(the merge's writes sit in the remote store's durability log until the
checkpoint). -/
def remoteDigestOf (dHash : List Nat → String) (env : Env) : Option String :=
  match env.download with
  | Except.ok (some c) => fileDigest dHash (some c)
  | _ => none

/-- `a` occurs in the list and its first occurrence is ahead of a later
occurrence of `b`. -/
def comesBefore : List Ev → Ev → Ev → Bool
  | [], _, _ => false
  | x :: xs, a, b => if x = a then decide (b ∈ xs) else comesBefore xs a b

/-- Trace suffixes appended after the decision points contain none of the
five key events the ordering claims speak about. -/
def keyFree (t : List Ev) : Prop :=
  ∀ e ∈ t, e ≠ Ev.merge ∧ e ≠ Ev.digestRemote ∧ e ≠ Ev.checkpointLocal
    ∧ e ≠ Ev.checkpointRemote ∧ e ≠ Ev.upload

def uploadCond (env : Env) (direction : SyncDirection) (stats : MergeStats) : Prop :=
  (direction = SyncDirection.push ∨ direction = SyncDirection.both)
  ∧ ((0 < stats.remote_changes ∨ remoteExistsOf env = false)
     ∨ direction = SyncDirection.push)

def fallbackCond (dHash : List Nat → String) (env : Env)
    (direction : SyncDirection) (stats : MergeStats) : Prop :=
  stats.local_changes = 0
  ∧ (direction = SyncDirection.pull ∨ direction = SyncDirection.both)
  ∧ remoteExistsOf env = true
  ∧ remoteDigestOf dHash env ≠ none
  ∧ remoteDigestOf dHash env ≠ localDigestBeforeOf dHash env

instance uploadCond_dec (env : Env) (direction : SyncDirection)
    (stats : MergeStats) : Decidable (uploadCond env direction stats) :=
  inferInstanceAs (Decidable
    ((direction = SyncDirection.push ∨ direction = SyncDirection.both)
     ∧ ((0 < stats.remote_changes ∨ remoteExistsOf env = false)
        ∨ direction = SyncDirection.push)))

instance fallbackCond_dec (dHash : List Nat → String) (env : Env)
    (direction : SyncDirection) (stats : MergeStats) :
    Decidable (fallbackCond dHash env direction stats) :=
  inferInstanceAs (Decidable
    (stats.local_changes = 0
     ∧ (direction = SyncDirection.pull ∨ direction = SyncDirection.both)
     ∧ remoteExistsOf env = true
     ∧ remoteDigestOf dHash env ≠ none
     ∧ remoteDigestOf dHash env ≠ localDigestBeforeOf dHash env))

/-- Concrete digest function for witness runs: decimal rendering of a
positional fold of the bytes. -/
def wHash (c : List Nat) : String :=
  natRepr (c.foldl (fun a x => 10 * a + x + 1) 0)

/-- A store or backend operation that succeeds. -/
def wOk : Except String Unit := Except.ok ()

/-- Witness environment: a remote snapshot `[3, 4]` exists, the local store
file is `[1, 2]`, every operation succeeds and the merge reports one local
and one remote change. -/
def envBoth : Env where
  localBytes0 := some [1, 2]
  localLogical0 := [1, 2]
  metadata0 := []
  download := Except.ok (some [3, 4])
  ensureInitRes := wOk
  initRemote := [0]
  mergeRes := Except.ok (⟨1, 1, 2, 1⟩, [5, 6], [5, 6])
  checkpointLocalRes := wOk
  checkpointRemoteRes := wOk
  uploadRes := wOk
  replaceRes := wOk
  checkpointLocal2Res := wOk
  metaAtRes := wOk
  metaDirRes := wOk
  now := "2026-10-12T00:00:00+00:00"

/-- Witness environment for the pull-missing failure: no remote snapshot. -/
def envPull : Env := { envBoth with download := Except.ok none }

/-- Witness environment for the fallback replace: the remote bytes `[3, 4]`
differ from the local `[1, 2]` while the merge reports zero changes
everywhere. -/
def envFallback : Env :=
  { envBoth with mergeRes := Except.ok (⟨0, 0, 0, 0⟩, [1, 2], [3, 4]) }

/-- The run of `envBoth` in direction BOTH. -/
def outBoth : Except Err SyncResult × St := sync wHash envBoth SyncDirection.both

/-- Result value of the `envBoth` BOTH run. -/
def resBoth : SyncResult :=
  match outBoth.1 with
  | Except.ok r => r
  | Except.error _ => ⟨false, false, "", 0, 0, 0, 0⟩

/-- The run of `envFallback` in direction BOTH. -/
def outFallback : Except Err SyncResult × St :=
  sync wHash envFallback SyncDirection.both

/-- Result value of the `envFallback` BOTH run. -/
def resFallback : SyncResult :=
  match outFallback.1 with
  | Except.ok r => r
  | Except.error _ => ⟨false, false, "", 0, 0, 0, 0⟩

/-- The run of `envBoth` in direction PUSH. -/
def outPush : Except Err SyncResult × St := sync wHash envBoth SyncDirection.push

/-- Result value of the `envBoth` PUSH run. -/
def resPush : SyncResult :=
  match outPush.1 with
  | Except.ok r => r
  | Except.error _ => ⟨false, false, "", 0, 0, 0, 0⟩

/-! ## Theorems -/

theorem lowerStable_of_all {l : List Char}
    (h : l.all (fun c => c.toLower == c) = true) : lowerStable l := by
  intro c hc
  simpa using List.all_eq_true.1 h c hc

theorem lowerStable_append {a b : List Char} (ha : lowerStable a)
    (hb : lowerStable b) : lowerStable (a ++ b) := by
  intro c hc
  rcases List.mem_append.1 hc with h | h
  · exact ha c h
  · exact hb c h

theorem strData_append (a b : String) : (a ++ b).data = a.data ++ b.data := rfl

theorem digitChar_lower {d : Nat} (hd : d < 10) :
    (digitChar d).toLower = digitChar d := by
  interval_cases d <;> decide

theorem natReprAux_lowerStable (fuel : Nat) :
    ∀ (n : Nat) (acc : List Char), lowerStable acc →
      lowerStable (natReprAux fuel n acc) := by
  induction fuel with
  | zero => intro n acc hacc; exact hacc
  | succ fuel ih =>
    intro n acc hacc
    unfold natReprAux
    split
    · exact hacc
    · refine ih (n / 10) _ ?_
      intro c hc
      rcases List.mem_cons.1 hc with hc | hc
      · subst hc
        exact digitChar_lower (Nat.mod_lt _ (by norm_num))
      · exact hacc c hc

theorem natRepr_lowerStable (n : Nat) : lowerStable (natRepr n).data := by
  unfold natRepr
  split
  · exact lowerStable_of_all (by decide)
  · exact natReprAux_lowerStable n n [] (by intro c hc; cases hc)

theorem lowerStable_tail {l : List Char} (h : lowerStable l) :
    lowerStable l.tail := by
  intro c hc
  exact h c (List.mem_of_mem_tail hc)

theorem pyCapitalize_eq_capitalizeFirst (s : String)
    (h : lowerStable s.data.tail) : pyCapitalize s = capitalizeFirst s := by
  unfold pyCapitalize capitalizeFirst
  cases hs : s.data with
  | nil => rfl
  | cons c cs =>
    rw [hs] at h
    simp only [List.tail_cons] at h
    have hmap : cs.map Char.toLower = cs := by
      calc cs.map Char.toLower = cs.map id := List.map_congr_left h
        _ = cs := List.map_id cs
    simp only [hmap]

theorem joinComma_lowerStable :
    ∀ parts : List String, (∀ p ∈ parts, lowerStable p.data) →
      lowerStable (joinComma parts).data := by
  intro parts
  induction parts with
  | nil => intro _ c hc; cases hc
  | cons p rest ih =>
    intro h
    cases rest with
    | nil =>
      simpa [joinComma] using h p (by simp)
    | cons q rs =>
      show lowerStable (joinComma (p :: q :: rs)).data
      have hjoin : joinComma (p :: q :: rs) = p ++ ", " ++ joinComma (q :: rs) := rfl
      rw [hjoin, strData_append, strData_append]
      refine lowerStable_append (lowerStable_append ?_ ?_) ?_
      · exact h p (by simp)
      · exact lowerStable_of_all (by decide)
      · exact ih fun r hr => h r (List.mem_cons_of_mem _ hr)

theorem mergedClause_lowerStable (n : Nat) :
    lowerStable ("merged " ++ natRepr n ++ " notes").data := by
  rw [strData_append, strData_append]
  refine lowerStable_append (lowerStable_append ?_ (natRepr_lowerStable n)) ?_
  · exact lowerStable_of_all (by decide)
  · exact lowerStable_of_all (by decide)

theorem propagatedClause_lowerStable (n : Nat) :
    lowerStable ("propagated " ++ natRepr n ++ " deletions").data := by
  rw [strData_append, strData_append]
  refine lowerStable_append (lowerStable_append ?_ (natRepr_lowerStable n)) ?_
  · exact lowerStable_of_all (by decide)
  · exact lowerStable_of_all (by decide)

theorem readChunksGo_flatten (fuel : Nat) :
    ∀ content : List Nat, content.length ≤ fuel →
      (readChunksGo fuel content).flatten = content := by
  induction fuel with
  | zero =>
    intro content hlen
    rw [List.length_eq_zero.1 (Nat.le_zero.1 hlen)]
    rfl
  | succ fuel ih =>
    intro content hlen
    unfold readChunksGo
    split
    · simp_all
    · next hc =>
      rw [List.flatten_cons, ih (content.drop chunkSize) ?_, List.take_append_drop]
      have hpos : 0 < content.length := List.length_pos.2 hc
      have hchunk : 0 < chunkSize := by norm_num [chunkSize]
      simp only [List.length_drop]
      omega

theorem readChunks_flatten (content : List Nat) :
    (readChunks content).flatten = content :=
  readChunksGo_flatten content.length content (Nat.le_refl _)

theorem foldl_hashUpdate (chunks : List (List Nat)) :
    ∀ acc : List Nat,
      (chunks.foldl HashState.update ⟨acc⟩).fed = acc ++ chunks.flatten := by
  induction chunks with
  | nil => intro acc; simp
  | cons c cs ih =>
    intro acc
    simp only [List.foldl_cons, List.flatten_cons]
    rw [show HashState.update ⟨acc⟩ c = ⟨acc ++ c⟩ from rfl, ih, List.append_assoc]

theorem fileDigest_some (dHash : List Nat → String) (content : List Nat) :
    fileDigest dHash (some content) = some (dHash content) := by
  show some (dHash ((readChunks content).foldl HashState.update ⟨[]⟩).fed)
    = some (dHash content)
  rw [foldl_hashUpdate, List.nil_append, readChunks_flatten]

/-! ### Decision conditions of the orchestrator, as predicates over the
environment, and a characterization of every successful call -/

theorem syncMetaPhase_ok {env : Env} {stats : MergeStats} {u d : Bool} {st : St}
    {res : SyncResult} {st' : St}
    (h : syncMetaPhase env stats u d st = (Except.ok res, st')) :
    res.uploaded = u ∧ res.downloaded = d
    ∧ st'.metadata = ("last_sync_direction",
          if u = true then "upload" else if d = true then "download" else "noop")
        :: ("last_sync_at", currentTimestamp env) :: st.metadata
    ∧ st'.trace = st.trace
        ++ [Ev.setMeta "last_sync_at" (currentTimestamp env),
            Ev.setMeta "last_sync_direction"
              (if u = true then "upload" else if d = true then "download" else "noop")]
    ∧ st'.localBytes = st.localBytes ∧ st'.localLogical = st.localLogical
    ∧ st'.workBytes = st.workBytes ∧ st'.workDir = st.workDir := by
  unfold syncMetaPhase at h
  rcases hma : env.metaAtRes with m | u1
  · rw [hma] at h; simp at h
  · rw [hma] at h
    rcases hmd : env.metaDirRes with m | u2
    · rw [hmd] at h; simp at h
    · rw [hmd] at h
      simp only [emit, Prod.mk.injEq, Except.ok.injEq] at h
      obtain ⟨h1, h2⟩ := h
      subst h1
      subst h2
      simp [List.append_assoc]

theorem syncFallbackPhase_ok {env : Env} {direction : SyncDirection} {re : Bool}
    {ldb rdig : Option String} {stats : MergeStats} {u d : Bool} {st : St}
    {res : SyncResult} {st' : St}
    (h : syncFallbackPhase env direction re ldb rdig stats u d st
      = (Except.ok res, st')) :
    ((d = false ∧ (direction = SyncDirection.pull ∨ direction = SyncDirection.both)
        ∧ re = true ∧ rdig ≠ none ∧ rdig ≠ ldb) →
      syncMetaPhase env stats u true
        { st with localBytes := some (st.workBytes.getD []),
                  localLogical := st.workBytes.getD [],
                  trace := st.trace ++ [Ev.replaceLocal, Ev.checkpointAfterReplace] }
        = (Except.ok res, st'))
    ∧ (¬ (d = false ∧ (direction = SyncDirection.pull ∨ direction = SyncDirection.both)
        ∧ re = true ∧ rdig ≠ none ∧ rdig ≠ ldb) →
      syncMetaPhase env stats u d st = (Except.ok res, st')) := by
  unfold syncFallbackPhase at h
  by_cases hc : (d = false ∧ (direction = SyncDirection.pull ∨ direction = SyncDirection.both)
      ∧ re = true ∧ rdig ≠ none ∧ rdig ≠ ldb)
  · rw [if_pos hc] at h
    refine ⟨fun _ => ?_, fun hnc => absurd hc hnc⟩
    rcases hrep : env.replaceRes with m | u1
    · rw [hrep] at h; simp at h
    · rw [hrep] at h
      rcases hcp2 : env.checkpointLocal2Res with m | u2
      · rw [hcp2] at h; simp at h
      · rw [hcp2] at h
        simp only [emit] at h
        simp only [List.append_assoc] at h
        convert h using 2
  · rw [if_neg hc] at h
    exact ⟨fun hcc => absurd hcc hc, fun _ => h⟩

theorem syncUploadPhase_ok {env : Env} {direction : SyncDirection} {re : Bool}
    {ldb rdig : Option String} {stats : MergeStats} {st : St}
    {res : SyncResult} {st' : St}
    (h : syncUploadPhase env direction re ldb rdig stats st = (Except.ok res, st')) :
    (((direction = SyncDirection.push ∨ direction = SyncDirection.both)
        ∧ ((0 < stats.remote_changes ∨ re = false) ∨ direction = SyncDirection.push)) →
      syncFallbackPhase env direction re ldb rdig stats true
        (decide (0 < stats.local_changes))
        { st with uploadedBytes := st.workBytes, trace := st.trace ++ [Ev.upload] }
        = (Except.ok res, st'))
    ∧ (¬ ((direction = SyncDirection.push ∨ direction = SyncDirection.both)
        ∧ ((0 < stats.remote_changes ∨ re = false) ∨ direction = SyncDirection.push)) →
      syncFallbackPhase env direction re ldb rdig stats false
        (decide (0 < stats.local_changes)) st = (Except.ok res, st')) := by
  unfold syncUploadPhase at h
  by_cases hc : ((direction = SyncDirection.push ∨ direction = SyncDirection.both)
      ∧ ((0 < stats.remote_changes ∨ re = false) ∨ direction = SyncDirection.push))
  · rw [if_pos hc] at h
    refine ⟨fun _ => ?_, fun hnc => absurd hc hnc⟩
    rcases hup : env.uploadRes with m | u1
    · rw [hup] at h; simp at h
    · rw [hup] at h
      simp only [emit] at h
      convert h using 2
  · rw [if_neg hc] at h
    exact ⟨fun hcc => absurd hcc hc, fun _ => h⟩

theorem cleanup_facts (st : St) :
    (cleanup st).metadata = st.metadata
    ∧ (cleanup st).localBytes = st.localBytes
    ∧ (cleanup st).localLogical = st.localLogical
    ∧ ∀ e : Ev, e ≠ Ev.unlinkWorkFile → e ≠ Ev.removeWorkDir →
        (e ∈ (cleanup st).trace ↔ e ∈ st.trace) := by
  rcases st with ⟨a, b, wb, wd, r, md, ub, tr⟩
  unfold cleanup
  rcases wb with _ | w <;> rcases wd <;>
    simp only [Option.isSome_some, Option.isSome_none, if_true, if_false] <;>
    refine ⟨rfl, rfl, rfl, ?_⟩ <;> intro e h1 h2 <;>
    simp [List.mem_append, h1, h2]

theorem sync_ok_char {dHash : List Nat → String} {env : Env}
    {direction : SyncDirection} {res : SyncResult} {st : St}
    (hrun : sync dHash env direction = (Except.ok res, st)) :
    ∃ stats newLocal newRemote,
      env.mergeRes = Except.ok (stats, newLocal, newRemote)
      ∧ res.uploaded = decide (uploadCond env direction stats)
      ∧ res.downloaded = (decide (0 < stats.local_changes)
          || decide (fallbackCond dHash env direction stats))
      ∧ (Ev.upload ∈ st.trace ↔ uploadCond env direction stats)
      ∧ (Ev.replaceLocal ∈ st.trace ↔ fallbackCond dHash env direction stats)
      ∧ (Ev.checkpointAfterReplace ∈ st.trace ↔ fallbackCond dHash env direction stats)
      ∧ (fallbackCond dHash env direction stats →
          st.localBytes = some newRemote ∧ st.localLogical = newRemote)
      ∧ (¬ fallbackCond dHash env direction stats →
          st.localBytes = some newLocal ∧ st.localLogical = newLocal)
      ∧ st.metadata = ("last_sync_direction",
            if res.uploaded = true then "upload"
            else if res.downloaded = true then "download" else "noop")
          :: ("last_sync_at", currentTimestamp env) :: env.metadata0
      ∧ Ev.merge ∈ st.trace := by
  unfold sync at hrun
  simp only at hrun
  rcases hb : syncBody dHash env direction (fileDigest dHash env.localBytes0)
    (initialState env) with ⟨r2, st2⟩
  rw [hb] at hrun
  simp only [Prod.mk.injEq] at hrun
  obtain ⟨hr, hst⟩ := hrun
  subst hr
  subst hst
  unfold syncBody at hb
  rcases hdl : env.download with m | dl
  · rw [hdl] at hb; simp [emit] at hb
  · rw [hdl] at hb
    simp only [emit, initialState] at hb
    rcases dl with _ | c
    · -- no remote snapshot
      have hre : remoteExistsOf env = false := by simp [remoteExistsOf, hdl]
      have hfFc : ∀ stats, ¬ fallbackCond dHash env direction stats := by
        intro stats hx
        unfold fallbackCond at hx
        rw [hre] at hx
        simpa using hx.2.2.1
      simp only [Option.isSome_none] at hb
      by_cases hpm : direction = SyncDirection.pull
      · rw [if_pos ⟨hpm, trivial⟩] at hb
        simp at hb
      · rw [if_neg (by simp [hpm])] at hb
        unfold syncMergePhase at hb
        simp only [emit] at hb
        rcases hei : env.ensureInitRes with m | u1
        · rw [hei] at hb; simp at hb
        · rw [hei] at hb
          simp only [Option.getD_none] at hb
          rcases hlb : env.localBytes0 with _ | lb
          · rw [hlb] at hb; simp [emit] at hb
          · rw [hlb] at hb
            rcases hmr : env.mergeRes with m | x
            · rw [hmr] at hb; simp [emit] at hb
            · rcases x with ⟨stats, newLocal, newRemote⟩
              rw [hmr] at hb
              simp only [emit, Bool.false_eq_true, if_false] at hb
              rcases hcl : env.checkpointLocalRes with m | u2
              · rw [hcl] at hb; simp [emit] at hb
              · rw [hcl] at hb
                rcases hcr : env.checkpointRemoteRes with m | u3
                · rw [hcr] at hb; simp [emit] at hb
                · rw [hcr] at hb
                  simp only [emit] at hb
                  obtain ⟨hA, hB⟩ := syncUploadPhase_ok hb
                  refine ⟨stats, newLocal, newRemote, rfl, ?_⟩
                  have hf := hfFc stats
                  have hnf : ¬ (decide (0 < stats.local_changes) = false
                      ∧ (direction = SyncDirection.pull ∨ direction = SyncDirection.both)
                      ∧ (false : Bool) = true
                      ∧ (none : Option String) ≠ none
                      ∧ (none : Option String) ≠ fileDigest dHash (some lb)) := by
                    intro hx; simpa using hx.2.2.1
                  by_cases hu : uploadCond env direction stats
                  · have hu2 := hu
                    unfold uploadCond at hu2
                    rw [hre] at hu2
                    have hb2 := hA hu2
                    have hb3 := (syncFallbackPhase_ok hb2).2 hnf
                    obtain ⟨hru, hrd2, hmd, htr, hlb2, hll2, hwb2, hwd2⟩ :=
                      syncMetaPhase_ok hb3
                    obtain ⟨cmd, clb, cll, ctr⟩ := cleanup_facts st2
                    refine ⟨?_, ?_, ?_, ?_, ?_, ?_, ?_, ?_, ?_⟩
                    · simp [hru, hu]
                    · simp [hrd2, hf]
                    · rw [ctr Ev.upload (by decide) (by decide), htr]
                      simp [hu]
                    · rw [ctr Ev.replaceLocal (by decide) (by decide), htr]
                      simp [hf]
                    · rw [ctr Ev.checkpointAfterReplace (by decide) (by decide), htr]
                      simp [hf]
                    · intro hx; exact absurd hx hf
                    · intro _
                      rw [clb, hlb2, cll, hll2]
                      simp
                    · rw [cmd, hmd, hru, hrd2]
                    · rw [ctr Ev.merge (by decide) (by decide), htr]
                      simp
                  · have hu2 := hu
                    unfold uploadCond at hu2
                    rw [hre] at hu2
                    have hb2 := hB hu2
                    have hb3 := (syncFallbackPhase_ok hb2).2 hnf
                    obtain ⟨hru, hrd2, hmd, htr, hlb2, hll2, hwb2, hwd2⟩ :=
                      syncMetaPhase_ok hb3
                    obtain ⟨cmd, clb, cll, ctr⟩ := cleanup_facts st2
                    refine ⟨?_, ?_, ?_, ?_, ?_, ?_, ?_, ?_, ?_⟩
                    · simp [hru, hu]
                    · simp [hrd2, hf]
                    · rw [ctr Ev.upload (by decide) (by decide), htr]
                      simp [hu]
                    · rw [ctr Ev.replaceLocal (by decide) (by decide), htr]
                      simp [hf]
                    · rw [ctr Ev.checkpointAfterReplace (by decide) (by decide), htr]
                      simp [hf]
                    · intro hx; exact absurd hx hf
                    · intro _
                      rw [clb, hlb2, cll, hll2]
                      simp
                    · rw [cmd, hmd, hru, hrd2]
                    · rw [ctr Ev.merge (by decide) (by decide), htr]
                      simp
    · -- the remote snapshot exists, with content c
      have hre : remoteExistsOf env = true := by simp [remoteExistsOf, hdl]
      have hrdg : remoteDigestOf dHash env = fileDigest dHash (some c) := by
        simp [remoteDigestOf, hdl]
      simp only [Option.isSome_some] at hb
      rw [if_neg (by simp)] at hb
      unfold syncMergePhase at hb
      simp only [emit] at hb
      rcases hei : env.ensureInitRes with m | u1
      · rw [hei] at hb; simp at hb
      · rw [hei] at hb
        simp only [Option.getD_some] at hb
        rcases hlb : env.localBytes0 with _ | lb
        · rw [hlb] at hb; simp [emit] at hb
        · rw [hlb] at hb
          have hldb : localDigestBeforeOf dHash env = fileDigest dHash (some lb) := by
            simp [localDigestBeforeOf, hlb]
          rcases hmr : env.mergeRes with m | x
          · rw [hmr] at hb; simp [emit] at hb
          · rcases x with ⟨stats, newLocal, newRemote⟩
            rw [hmr] at hb
            simp only [emit, if_pos rfl, Option.isSome_some, if_true] at hb
            rcases hcl : env.checkpointLocalRes with m | u2
            · rw [hcl] at hb; simp [emit] at hb
            · rw [hcl] at hb
              rcases hcr : env.checkpointRemoteRes with m | u3
              · rw [hcr] at hb; simp [emit] at hb
              · rw [hcr] at hb
                simp only [emit] at hb
                obtain ⟨hA, hB⟩ := syncUploadPhase_ok hb
                refine ⟨stats, newLocal, newRemote, rfl, ?_⟩
                by_cases hu : uploadCond env direction stats
                · have hu2 := hu
                  unfold uploadCond at hu2
                  rw [hre] at hu2
                  have hb2 := hA hu2
                  by_cases hf : fallbackCond dHash env direction stats
                  · have hf2 := hf
                    unfold fallbackCond at hf2
                    rw [hre, hrdg, hldb] at hf2
                    have hb3 := (syncFallbackPhase_ok hb2).1
                      ⟨by simp [hf2.1], hf2.2⟩
                    obtain ⟨hru, hrd2, hmd, htr, hlb2, hll2, hwb2, hwd2⟩ :=
                      syncMetaPhase_ok hb3
                    obtain ⟨cmd, clb, cll, ctr⟩ := cleanup_facts st2
                    refine ⟨?_, ?_, ?_, ?_, ?_, ?_, ?_, ?_, ?_⟩
                    · simp [hru, hu]
                    · simp [hrd2, hf]
                    · rw [ctr Ev.upload (by decide) (by decide), htr]
                      simp [hu]
                    · rw [ctr Ev.replaceLocal (by decide) (by decide), htr]
                      simp [hf]
                    · rw [ctr Ev.checkpointAfterReplace (by decide) (by decide), htr]
                      simp [hf]
                    · intro _
                      rw [clb, hlb2, cll, hll2]
                      simp
                    · intro hx; exact absurd hf hx
                    · rw [cmd, hmd, hru, hrd2]
                    · rw [ctr Ev.merge (by decide) (by decide), htr]
                      simp
                  · have hf2 := hf
                    unfold fallbackCond at hf2
                    rw [hre, hrdg, hldb] at hf2
                    have hnf : ¬ (decide (0 < stats.local_changes) = false
                        ∧ (direction = SyncDirection.pull ∨ direction = SyncDirection.both)
                        ∧ (true : Bool) = true
                        ∧ fileDigest dHash (some c) ≠ none
                        ∧ fileDigest dHash (some c) ≠ fileDigest dHash (some lb)) := by
                      intro hx
                      refine hf2 ⟨?_, hx.2⟩
                      have := of_decide_eq_false hx.1
                      omega
                    have hb3 := (syncFallbackPhase_ok hb2).2 hnf
                    obtain ⟨hru, hrd2, hmd, htr, hlb2, hll2, hwb2, hwd2⟩ :=
                      syncMetaPhase_ok hb3
                    obtain ⟨cmd, clb, cll, ctr⟩ := cleanup_facts st2
                    refine ⟨?_, ?_, ?_, ?_, ?_, ?_, ?_, ?_, ?_⟩
                    · simp [hru, hu]
                    · simp [hrd2, hf]
                    · rw [ctr Ev.upload (by decide) (by decide), htr]
                      simp [hu]
                    · rw [ctr Ev.replaceLocal (by decide) (by decide), htr]
                      simp [hf]
                    · rw [ctr Ev.checkpointAfterReplace (by decide) (by decide), htr]
                      simp [hf]
                    · intro hx; exact absurd hx hf
                    · intro _
                      rw [clb, hlb2, cll, hll2]
                      simp
                    · rw [cmd, hmd, hru, hrd2]
                    · rw [ctr Ev.merge (by decide) (by decide), htr]
                      simp
                · have hu2 := hu
                  unfold uploadCond at hu2
                  rw [hre] at hu2
                  have hb2 := hB hu2
                  by_cases hf : fallbackCond dHash env direction stats
                  · have hf2 := hf
                    unfold fallbackCond at hf2
                    rw [hre, hrdg, hldb] at hf2
                    have hb3 := (syncFallbackPhase_ok hb2).1
                      ⟨by simp [hf2.1], hf2.2⟩
                    obtain ⟨hru, hrd2, hmd, htr, hlb2, hll2, hwb2, hwd2⟩ :=
                      syncMetaPhase_ok hb3
                    obtain ⟨cmd, clb, cll, ctr⟩ := cleanup_facts st2
                    refine ⟨?_, ?_, ?_, ?_, ?_, ?_, ?_, ?_, ?_⟩
                    · simp [hru, hu]
                    · simp [hrd2, hf]
                    · rw [ctr Ev.upload (by decide) (by decide), htr]
                      simp [hu]
                    · rw [ctr Ev.replaceLocal (by decide) (by decide), htr]
                      simp [hf]
                    · rw [ctr Ev.checkpointAfterReplace (by decide) (by decide), htr]
                      simp [hf]
                    · intro _
                      rw [clb, hlb2, cll, hll2]
                      simp
                    · intro hx; exact absurd hf hx
                    · rw [cmd, hmd, hru, hrd2]
                    · rw [ctr Ev.merge (by decide) (by decide), htr]
                      simp
                  · have hf2 := hf
                    unfold fallbackCond at hf2
                    rw [hre, hrdg, hldb] at hf2
                    have hnf : ¬ (decide (0 < stats.local_changes) = false
                        ∧ (direction = SyncDirection.pull ∨ direction = SyncDirection.both)
                        ∧ (true : Bool) = true
                        ∧ fileDigest dHash (some c) ≠ none
                        ∧ fileDigest dHash (some c) ≠ fileDigest dHash (some lb)) := by
                      intro hx
                      refine hf2 ⟨?_, hx.2⟩
                      have := of_decide_eq_false hx.1
                      omega
                    have hb3 := (syncFallbackPhase_ok hb2).2 hnf
                    obtain ⟨hru, hrd2, hmd, htr, hlb2, hll2, hwb2, hwd2⟩ :=
                      syncMetaPhase_ok hb3
                    obtain ⟨cmd, clb, cll, ctr⟩ := cleanup_facts st2
                    refine ⟨?_, ?_, ?_, ?_, ?_, ?_, ?_, ?_, ?_⟩
                    · simp [hru, hu]
                    · simp [hrd2, hf]
                    · rw [ctr Ev.upload (by decide) (by decide), htr]
                      simp [hu]
                    · rw [ctr Ev.replaceLocal (by decide) (by decide), htr]
                      simp [hf]
                    · rw [ctr Ev.checkpointAfterReplace (by decide) (by decide), htr]
                      simp [hf]
                    · intro hx; exact absurd hx hf
                    · intro _
                      rw [clb, hlb2, cll, hll2]
                      simp
                    · rw [cmd, hmd, hru, hrd2]
                    · rw [ctr Ev.merge (by decide) (by decide), htr]
                      simp

/-! ## Claim C8 and C10 theorems on the leaf utilities -/

theorem append_ite_list (l : List String) (b : Prop) [Decidable b]
    (x : List String) : (if b then l ++ x else l) = l ++ (if b then x else []) := by
  split <;> simp

theorem formatBranch_eq (parts : List String)
    (h : ∀ p ∈ parts, lowerStable p.data) :
    (if parts = [] then "No changes detected" else pyCapitalize (joinComma parts)) =
    (if parts = [] then "No changes detected" else capitalizeFirst (joinComma parts)) := by
  split
  · rfl
  · exact pyCapitalize_eq_capitalizeFirst _ (lowerStable_tail (joinComma_lowerStable _ h))

theorem mem_ite_singleton {p x : String} {b : Prop} [Decidable b]
    (h : p ∈ (if b then [x] else ([] : List String))) : p = x := by
  split at h
  · simpa using h
  · cases h

theorem lowerStable_parts (uploaded downloaded : Bool) (nm nd : Nat) :
    ∀ p ∈ ((if uploaded = true then ["uploaded changes"] else []) ++
           ((if downloaded = true then ["downloaded changes"] else []) ++
            ((if nm ≠ 0 then ["merged " ++ natRepr nm ++ " notes"] else []) ++
             (if nd ≠ 0 then ["propagated " ++ natRepr nd ++ " deletions"] else [])))),
      lowerStable p.data := by
  intro p hp
  simp only [List.mem_append] at hp
  rcases hp with h | h | h | h
  · rw [mem_ite_singleton h]; exact lowerStable_of_all (by decide)
  · rw [mem_ite_singleton h]; exact lowerStable_of_all (by decide)
  · rw [mem_ite_singleton h]; exact mergedClause_lowerStable nm
  · rw [mem_ite_singleton h]; exact propagatedClause_lowerStable nd

/-- C8: the result-message formatter is a deterministic, side-effect-free
function of `(uploaded, downloaded, stats)`; it joins, in order, the clauses
"uploaded changes", "downloaded changes", "merged N notes" (N = notes_merged)
and "propagated N deletions" (N = notes_deleted) with ", " and capitalizes the
start; if no clause applies it returns exactly "No changes detected".  In
particular `(uploaded := true, downloaded := false, notes_merged := 0,
notes_deleted := 0)` yields "Uploaded changes" and `(uploaded := false,
downloaded := false, notes_merged := 3, notes_deleted := 1)` yields
"Merged 3 notes, propagated 1 deletions". -/
theorem c8_format_message :
    (∀ (stats : MergeStats) (uploaded downloaded : Bool),
        formatMessage stats uploaded downloaded
          = specFormatMessage uploaded downloaded stats)
    ∧ formatMessage ⟨0, 0, 0, 0⟩ true false = "Uploaded changes"
    ∧ formatMessage ⟨0, 0, 3, 1⟩ false false
        = "Merged 3 notes, propagated 1 deletions"
    ∧ (∀ stats : MergeStats, stats.notes_merged = 0 → stats.notes_deleted = 0 →
        formatMessage stats false false = "No changes detected") := by
  refine ⟨?_, by decide, by decide, ?_⟩
  · intro stats uploaded downloaded
    unfold formatMessage specFormatMessage
    simp only [append_ite_list]
    simp only [List.nil_append, List.append_assoc]
    exact formatBranch_eq _
      (lowerStable_parts uploaded downloaded stats.notes_merged stats.notes_deleted)
  · intro stats hm hd
    unfold formatMessage
    simp [hm, hd]

/-- C10: the digest utility is total at its interface: for every path,
`_file_digest` returns `none` when the file does not exist and otherwise the
SHA-256 hex digest of the file's full byte content (the chunked read loop
reassembles exactly the content), so two files with identical content always
receive equal digests and digest comparisons depend only on file content. -/
theorem c10_file_digest_total :
    ∀ (dHash : List Nat → String) (file : Option (List Nat)),
      fileDigest dHash file = file.map dHash := by
  intro dHash file
  cases file with
  | none => rfl
  | some c => rw [fileDigest_some]; rfl

theorem cleanup_clears (st : St) :
    (cleanup st).workBytes = none ∧ (cleanup st).workDir = false := by
  rcases st with ⟨a, b, wb, wd, r, md, ub, tr⟩
  unfold cleanup
  rcases wb with _ | w <;> rcases wd <;> simp

/-- C5: for every call of sync — whether it returns a `SyncResult` or fails at
any step — the workspace file is deleted if present and the workspace
directory is then removed (the removal, attempted only after the file is
gone, succeeds on the exclusively owned directory; a failure would be
swallowed), so neither the workspace file nor the workspace directory exists
on the filesystem after the call. -/
theorem c5_workspace_released (dHash : List Nat → String) (env : Env)
    (direction : SyncDirection) :
    (sync dHash env direction).2.workBytes = none
    ∧ (sync dHash env direction).2.workDir = false :=
  cleanup_clears _

/-- C4: a PULL sync against a backend that reports no remote snapshot fails
with the remote-missing error; the local store's bytes, its logical content
and its metadata are left exactly as they were, and the workspace file and
directory are removed. -/
theorem c4_pull_remote_missing (dHash : List Nat → String) (env : Env)
    (h : env.download = Except.ok none) :
    (sync dHash env SyncDirection.pull).1 = Except.error Err.remoteMissingForPull
    ∧ (sync dHash env SyncDirection.pull).2.localBytes = env.localBytes0
    ∧ (sync dHash env SyncDirection.pull).2.localLogical = env.localLogical0
    ∧ (sync dHash env SyncDirection.pull).2.metadata = env.metadata0
    ∧ (sync dHash env SyncDirection.pull).2.workBytes = none
    ∧ (sync dHash env SyncDirection.pull).2.workDir = false := by
  unfold sync syncBody
  rw [h]
  simp [emit, initialState, cleanup]

/-- C3: on every successful call, the backend upload is invoked — and
`uploaded` is true in the result — if and only if the direction is PUSH or
BOTH and (the merge reported remote changes, or no remote snapshot existed,
or the direction is PUSH); in particular a missing remote with a non-PULL
direction forces `uploaded = true` regardless of the reported remote change
count, and a PULL direction never uploads. -/
theorem c3_upload_decision (dHash : List Nat → String) (env : Env)
    (direction : SyncDirection) (res : SyncResult) (st : St)
    (stats : MergeStats) (newLocal newRemote : List Nat)
    (hrun : sync dHash env direction = (Except.ok res, st))
    (hmerge : env.mergeRes = Except.ok (stats, newLocal, newRemote)) :
    (res.uploaded = true ↔
      ((direction = SyncDirection.push ∨ direction = SyncDirection.both)
       ∧ (0 < stats.remote_changes ∨ remoteExistsOf env = false
          ∨ direction = SyncDirection.push)))
    ∧ (Ev.upload ∈ st.trace ↔ res.uploaded = true)
    ∧ (direction = SyncDirection.pull → res.uploaded = false)
    ∧ (remoteExistsOf env = false → direction ≠ SyncDirection.pull →
        res.uploaded = true) := by
  obtain ⟨stats2, nl2, nr2, hmr2, hup, hdown, hupmem, _⟩ := sync_ok_char hrun
  rw [hmerge] at hmr2
  simp only [Except.ok.injEq, Prod.mk.injEq] at hmr2
  obtain ⟨h1, h2, h3⟩ := hmr2
  subst h1; subst h2; subst h3
  refine ⟨?_, ?_, ?_, ?_⟩
  · rw [hup, decide_eq_true_eq]
    unfold uploadCond
    rw [or_assoc]
  · rw [hupmem, hup, decide_eq_true_eq]
  · intro hd
    subst hd
    rw [hup]
    refine decide_eq_false ?_
    intro hc
    rcases hc.1 with h | h <;> exact absurd h (by decide)
  · intro hre hnp
    rcases direction with _ | _ | _
    · exact absurd rfl hnp
    · rw [hup]
      exact decide_eq_true ⟨Or.inl rfl, Or.inr rfl⟩
    · rw [hup]
      exact decide_eq_true ⟨Or.inr rfl, Or.inl (Or.inr hre)⟩

/-- C2: on every successful call, the fallback replace runs if and only if
the merge reported no local changes (so `downloaded` was still false after
the upload decision), the direction is PULL or BOTH, the remote snapshot
existed, its digest is present and that digest differs from the digest of
the local store file taken before the fetch; when it runs, the local store's
bytes and logical content are replaced by the workspace file's (merged
remote) content, the local store is checkpointed again, and `downloaded` is
true in the result. -/
theorem c2_fallback_replace (dHash : List Nat → String) (env : Env)
    (direction : SyncDirection) (res : SyncResult) (st : St)
    (stats : MergeStats) (newLocal newRemote : List Nat)
    (hrun : sync dHash env direction = (Except.ok res, st))
    (hmerge : env.mergeRes = Except.ok (stats, newLocal, newRemote)) :
    (Ev.replaceLocal ∈ st.trace ↔
      (stats.local_changes = 0
       ∧ (direction = SyncDirection.pull ∨ direction = SyncDirection.both)
       ∧ remoteExistsOf env = true
       ∧ remoteDigestOf dHash env ≠ none
       ∧ remoteDigestOf dHash env ≠ localDigestBeforeOf dHash env))
    ∧ (Ev.replaceLocal ∈ st.trace →
        st.localBytes = some newRemote ∧ st.localLogical = newRemote
        ∧ Ev.checkpointAfterReplace ∈ st.trace ∧ res.downloaded = true) := by
  obtain ⟨stats2, nl2, nr2, hmr2, hup, hdown, hupmem, hrepmem, hcarmem, hfb, hnfb, _⟩ :=
    sync_ok_char hrun
  rw [hmerge] at hmr2
  simp only [Except.ok.injEq, Prod.mk.injEq] at hmr2
  obtain ⟨h1, h2, h3⟩ := hmr2
  subst h1; subst h2; subst h3
  constructor
  · have hx := hrepmem
    unfold fallbackCond at hx
    exact hx
  · intro hrep
    have hf := hrepmem.1 hrep
    obtain ⟨hlb2, hll2⟩ := hfb hf
    refine ⟨hlb2, hll2, hcarmem.2 hf, ?_⟩
    rw [hdown, decide_eq_true hf, Bool.or_true]

/-- C6: on every successful call, `downloaded` is true whenever the merge
reported local changes, independently of whether the fallback replace also
ran; and `downloaded` equals exactly "the merge pulled local changes or the
fallback replace ran" — its initial value being `local_changes > 0`. -/
theorem c6_downloaded_flag (dHash : List Nat → String) (env : Env)
    (direction : SyncDirection) (res : SyncResult) (st : St)
    (stats : MergeStats) (newLocal newRemote : List Nat)
    (hrun : sync dHash env direction = (Except.ok res, st))
    (hmerge : env.mergeRes = Except.ok (stats, newLocal, newRemote)) :
    (0 < stats.local_changes → res.downloaded = true)
    ∧ res.downloaded = (decide (0 < stats.local_changes)
        || decide (Ev.replaceLocal ∈ st.trace)) := by
  obtain ⟨stats2, nl2, nr2, hmr2, hup, hdown, hupmem, hrepmem, _⟩ := sync_ok_char hrun
  rw [hmerge] at hmr2
  simp only [Except.ok.injEq, Prod.mk.injEq] at hmr2
  obtain ⟨h1, h2, h3⟩ := hmr2
  subst h1; subst h2; subst h3
  constructor
  · intro hpos
    rw [hdown, decide_eq_true hpos, Bool.true_or]
  · rw [hdown]
    have hx : decide (Ev.replaceLocal ∈ st.trace)
        = decide (fallbackCond dHash env direction stats) :=
      decide_eq_decide.2 hrepmem
    rw [hx]

/-- C7: on every successful call, the local store's metadata records
`last_sync_at` as the clock reading `current_timestamp` returned during the
call (even on a no-op outcome), and `last_sync_direction` as "upload" if the
call uploaded, else "download" if it downloaded, else "noop" — upload taking
precedence when both occurred. -/
theorem c7_sync_metadata (dHash : List Nat → String) (env : Env)
    (direction : SyncDirection) (res : SyncResult) (st : St)
    (hrun : sync dHash env direction = (Except.ok res, st)) :
    List.lookup "last_sync_at" st.metadata = some (currentTimestamp env)
    ∧ List.lookup "last_sync_direction" st.metadata
        = some (if res.uploaded = true then "upload"
                else if res.downloaded = true then "download" else "noop") := by
  obtain ⟨stats2, nl2, nr2, hmr2, hup, hdown, hupmem, hrepmem, hcarmem, hfb, hnfb, hmd, _⟩ :=
    sync_ok_char hrun
  clear hrun hup hdown hupmem hrepmem hcarmem hfb hnfb hmr2
  rw [hmd]
  constructor
  · simp [List.lookup]
  · simp [List.lookup]

theorem comesBefore_append_left (a b : Ev) :
    ∀ pre suf : List Ev, comesBefore pre a b = true →
      comesBefore (pre ++ suf) a b = true := by
  intro pre
  induction pre with
  | nil => intro suf h; cases h
  | cons x xs ih =>
    intro suf h
    rw [List.cons_append]
    unfold comesBefore at h ⊢
    by_cases hx : x = a
    · rw [if_pos hx] at h ⊢
      exact decide_eq_true (List.mem_append_left _ (of_decide_eq_true h))
    · rw [if_neg hx] at h ⊢
      exact ih suf h

theorem comesBefore_of_split (a b : Ev) :
    ∀ pre suf : List Ev, a ∈ pre → b ∉ pre → b ∈ suf →
      comesBefore (pre ++ suf) a b = true := by
  intro pre
  induction pre with
  | nil => intro suf ha _ _; cases ha
  | cons x xs ih =>
    intro suf ha hnb hb
    rw [List.cons_append]
    unfold comesBefore
    by_cases hx : x = a
    · rw [if_pos hx]
      refine decide_eq_true ?_
      rw [List.mem_append]
      exact Or.inr hb
    · rw [if_neg hx]
      refine ih suf ?_ (fun hc => hnb (List.mem_cons_of_mem _ hc)) hb
      rcases List.mem_cons.1 ha with he | he
      · exact absurd he.symm hx
      · exact he

theorem keyFree_append {t1 t2 : List Ev} (h1 : keyFree t1) (h2 : keyFree t2) :
    keyFree (t1 ++ t2) := by
  intro e he
  rcases List.mem_append.1 he with h | h
  · exact h1 e h
  · exact h2 e h

theorem syncMetaPhase_trace (env : Env) (stats : MergeStats) (u d : Bool)
    (st : St) (r : Except Err SyncResult) (st' : St)
    (h : syncMetaPhase env stats u d st = (r, st')) :
    ∃ t, st'.trace = st.trace ++ t ∧ keyFree t := by
  unfold syncMetaPhase at h
  rcases hma : env.metaAtRes with m | u1 <;> rw [hma] at h
  · have h2 := congrArg Prod.snd h
    simp only [emit] at h2
    subst h2
    refine ⟨_, rfl, ?_⟩
    intro e he
    simp only [List.mem_singleton] at he
    subst he
    simp
  · rcases hmd : env.metaDirRes with m | u2 <;> rw [hmd] at h <;>
      have h2 := congrArg Prod.snd h <;> simp only [emit] at h2 <;> subst h2
    · refine ⟨[Ev.setMeta "last_sync_at" (currentTimestamp env),
        Ev.setMeta "last_sync_direction"
          (if u = true then "upload" else if d = true then "download" else "noop")],
        by simp, ?_⟩
      intro e he
      simp only [List.mem_cons, List.mem_singleton, List.not_mem_nil, or_false] at he
      rcases he with he | he <;> subst he <;> simp
    · refine ⟨[Ev.setMeta "last_sync_at" (currentTimestamp env),
        Ev.setMeta "last_sync_direction"
          (if u = true then "upload" else if d = true then "download" else "noop")],
        by simp, ?_⟩
      intro e he
      simp only [List.mem_cons, List.mem_singleton, List.not_mem_nil, or_false] at he
      rcases he with he | he <;> subst he <;> simp

theorem syncFallbackPhase_trace (env : Env) (direction : SyncDirection)
    (re : Bool) (ldb rdig : Option String) (stats : MergeStats) (u d : Bool)
    (st : St) (r : Except Err SyncResult) (st' : St)
    (h : syncFallbackPhase env direction re ldb rdig stats u d st = (r, st')) :
    ∃ t, st'.trace = st.trace ++ t ∧ keyFree t := by
  unfold syncFallbackPhase at h
  by_cases hc : (d = false ∧ (direction = SyncDirection.pull ∨ direction = SyncDirection.both)
      ∧ re = true ∧ rdig ≠ none ∧ rdig ≠ ldb)
  · rw [if_pos hc] at h
    rcases hrep : env.replaceRes with m | u1 <;> rw [hrep] at h
    · have h2 := congrArg Prod.snd h
      simp only [emit] at h2
      subst h2
      refine ⟨[Ev.replaceLocal], rfl, ?_⟩
      intro e he
      simp only [List.mem_singleton] at he
      subst he
      simp
    · rcases hcp2 : env.checkpointLocal2Res with m | u2 <;> rw [hcp2] at h
      · have h2 := congrArg Prod.snd h
        simp only [emit] at h2
        subst h2
        refine ⟨[Ev.replaceLocal, Ev.checkpointAfterReplace], by simp, ?_⟩
        intro e he
        simp only [List.mem_cons, List.mem_singleton, List.not_mem_nil, or_false] at he
        rcases he with he | he <;> subst he <;> simp
      · simp only [emit] at h
        obtain ⟨t2, ht2, hk2⟩ := syncMetaPhase_trace _ _ _ _ _ _ _ h
        simp only at ht2
        refine ⟨[Ev.replaceLocal, Ev.checkpointAfterReplace] ++ t2, ?_, ?_⟩
        · rw [ht2]
          simp [List.append_assoc]
        · refine keyFree_append ?_ hk2
          intro e he
          simp only [List.mem_cons, List.mem_singleton, List.not_mem_nil, or_false] at he
          rcases he with he | he <;> subst he <;> simp
  · rw [if_neg hc] at h
    exact syncMetaPhase_trace _ _ _ _ _ _ _ h

theorem syncUploadPhase_trace (env : Env) (direction : SyncDirection)
    (re : Bool) (ldb rdig : Option String) (stats : MergeStats)
    (st : St) (r : Except Err SyncResult) (st' : St)
    (h : syncUploadPhase env direction re ldb rdig stats st = (r, st')) :
    (∃ t, st'.trace = st.trace ++ t ∧ keyFree t)
    ∨ (∃ t, st'.trace = (st.trace ++ [Ev.upload]) ++ t ∧ keyFree t) := by
  unfold syncUploadPhase at h
  by_cases hc : ((direction = SyncDirection.push ∨ direction = SyncDirection.both)
      ∧ ((0 < stats.remote_changes ∨ re = false) ∨ direction = SyncDirection.push))
  · rw [if_pos hc] at h
    rcases hup : env.uploadRes with m | u1 <;> rw [hup] at h
    · have h2 := congrArg Prod.snd h
      simp only [emit] at h2
      subst h2
      exact Or.inr ⟨[], by simp, by intro e he; cases he⟩
    · simp only [emit] at h
      obtain ⟨t2, ht2, hk2⟩ := syncFallbackPhase_trace _ _ _ _ _ _ _ _ _ _ _ h
      simp only at ht2
      exact Or.inr ⟨t2, ht2, hk2⟩
  · rw [if_neg hc] at h
    exact Or.inl (syncFallbackPhase_trace _ _ _ _ _ _ _ _ _ _ _ h)

theorem cleanup_trace (st : St) :
    ∃ t, (cleanup st).trace = st.trace ++ t ∧ keyFree t := by
  rcases st with ⟨a, b, wb, wd, rl, md, ub, tr⟩
  unfold cleanup
  rcases wb with _ | w <;> rcases wd <;>
    simp only [Option.isSome_some, Option.isSome_none, if_true, if_false]
  · exact ⟨[], by simp, by intro e he; cases he⟩
  · refine ⟨[Ev.removeWorkDir], rfl, ?_⟩
    intro e he
    simp only [List.mem_singleton] at he
    subst he
    simp
  · refine ⟨[Ev.unlinkWorkFile], rfl, ?_⟩
    intro e he
    simp only [List.mem_singleton] at he
    subst he
    simp
  · refine ⟨[Ev.unlinkWorkFile, Ev.removeWorkDir], by simp, ?_⟩
    intro e he
    simp only [List.mem_cons, List.mem_singleton, List.not_mem_nil, or_false] at he
    rcases he with he | he <;> subst he <;> simp

theorem c1_claim_lift (L P t : List Ev) (hL : L = P ++ t) (hk : keyFree t)
    (hu : Ev.upload ∈ P → comesBefore P Ev.checkpointLocal Ev.upload = true
      ∧ comesBefore P Ev.checkpointRemote Ev.upload = true)
    (hd : Ev.digestRemote ∈ P → comesBefore P Ev.merge Ev.digestRemote = true
      ∧ comesBefore P Ev.digestRemote Ev.checkpointLocal = true) :
    (Ev.upload ∈ L → comesBefore L Ev.checkpointLocal Ev.upload = true
      ∧ comesBefore L Ev.checkpointRemote Ev.upload = true)
    ∧ (Ev.digestRemote ∈ L → comesBefore L Ev.merge Ev.digestRemote = true
      ∧ comesBefore L Ev.digestRemote Ev.checkpointLocal = true) := by
  subst hL
  constructor
  · intro hmem
    rcases List.mem_append.1 hmem with h | h
    · obtain ⟨h1, h2⟩ := hu h
      exact ⟨comesBefore_append_left _ _ P t h1, comesBefore_append_left _ _ P t h2⟩
    · exact absurd rfl (hk _ h).2.2.2.2
  · intro hmem
    rcases List.mem_append.1 hmem with h | h
    · obtain ⟨h1, h2⟩ := hd h
      exact ⟨comesBefore_append_left _ _ P t h1, comesBefore_append_left _ _ P t h2⟩
    · exact absurd rfl (hk _ h).2.1

/-- C1 (amended): in every call of sync, the checkpoint of both stores is
performed strictly before any upload, so the uploaded bytes reflect flushed
state; the post-merge digest of the workspace file, however, is computed
strictly after the merge and strictly before the checkpoints — not after
them, as originally claimed. -/
theorem c1_amended (dHash : List Nat → String) (env : Env)
    (direction : SyncDirection) :
    (Ev.upload ∈ (sync dHash env direction).2.trace →
      comesBefore (sync dHash env direction).2.trace
        Ev.checkpointLocal Ev.upload = true
      ∧ comesBefore (sync dHash env direction).2.trace
        Ev.checkpointRemote Ev.upload = true)
    ∧ (Ev.digestRemote ∈ (sync dHash env direction).2.trace →
      comesBefore (sync dHash env direction).2.trace
        Ev.merge Ev.digestRemote = true
      ∧ comesBefore (sync dHash env direction).2.trace
        Ev.digestRemote Ev.checkpointLocal = true) := by
  rcases hb : syncBody dHash env direction (fileDigest dHash env.localBytes0)
    (initialState env) with ⟨r2, st2⟩
  have hsync : (sync dHash env direction).2 = cleanup st2 := by
    unfold sync
    rw [hb]
  rw [hsync]
  obtain ⟨tc, htc, hkc⟩ := cleanup_trace st2
  rw [htc]
  unfold syncBody at hb
  rcases hdl : env.download with m | dl
  · rw [hdl] at hb
    simp only [emit, initialState] at hb
    have h2 := congrArg Prod.snd hb
    simp only at h2
    subst h2
    exact c1_claim_lift _ [Ev.digestLocalBefore, Ev.download] tc rfl hkc
      (by decide) (by decide)
  · rw [hdl] at hb
    simp only [emit, initialState] at hb
    rcases dl with _ | c
    · simp only [Option.isSome_none] at hb
      by_cases hpm : direction = SyncDirection.pull
      · rw [if_pos ⟨hpm, trivial⟩] at hb
        have h2 := congrArg Prod.snd hb
        simp only at h2
        subst h2
        exact c1_claim_lift _ [Ev.digestLocalBefore, Ev.download] tc rfl hkc
          (by decide) (by decide)
      · rw [if_neg (by simp [hpm])] at hb
        unfold syncMergePhase at hb
        simp only [emit] at hb
        rcases hei : env.ensureInitRes with m | u1 <;> rw [hei] at hb
        · have h2 := congrArg Prod.snd hb
          simp only at h2
          subst h2
          exact c1_claim_lift _ [Ev.digestLocalBefore, Ev.download, Ev.ensureInit]
            tc rfl hkc (by decide) (by decide)
        · simp only [Option.getD_none] at hb
          rcases hlb : env.localBytes0 with _ | lb <;> rw [hlb] at hb
          · have h2 := congrArg Prod.snd hb
            simp only at h2
            subst h2
            exact c1_claim_lift _ [Ev.digestLocalBefore, Ev.download, Ev.ensureInit]
              tc rfl hkc (by decide) (by decide)
          · rcases hmr : env.mergeRes with m | x <;> rw [hmr] at hb
            · have h2 := congrArg Prod.snd hb
              simp only at h2
              subst h2
              exact c1_claim_lift _
                [Ev.digestLocalBefore, Ev.download, Ev.ensureInit, Ev.merge]
                tc rfl hkc (by decide) (by decide)
            · rcases x with ⟨stats, newLocal, newRemote⟩
              simp only [emit, Bool.false_eq_true, if_false] at hb
              rcases hcl : env.checkpointLocalRes with m | u2 <;> rw [hcl] at hb
              · have h2 := congrArg Prod.snd hb
                simp only at h2
                subst h2
                exact c1_claim_lift _
                  [Ev.digestLocalBefore, Ev.download, Ev.ensureInit, Ev.merge,
                   Ev.checkpointLocal] tc rfl hkc (by decide) (by decide)
              · rcases hcr : env.checkpointRemoteRes with m | u3 <;> rw [hcr] at hb
                · have h2 := congrArg Prod.snd hb
                  simp only at h2
                  subst h2
                  exact c1_claim_lift _
                    [Ev.digestLocalBefore, Ev.download, Ev.ensureInit, Ev.merge,
                     Ev.checkpointLocal, Ev.checkpointRemote] tc rfl hkc
                    (by decide) (by decide)
                · simp only [emit] at hb
                  rcases syncUploadPhase_trace _ _ _ _ _ _ _ _ _ hb with
                    ⟨t, ht, hk⟩ | ⟨t, ht, hk⟩
                  · exact c1_claim_lift _
                      [Ev.digestLocalBefore, Ev.download, Ev.ensureInit, Ev.merge,
                       Ev.checkpointLocal, Ev.checkpointRemote] (t ++ tc)
                      (by rw [ht]; exact List.append_assoc _ _ _)
                      (keyFree_append hk hkc) (by decide) (by decide)
                  · exact c1_claim_lift _
                      [Ev.digestLocalBefore, Ev.download, Ev.ensureInit, Ev.merge,
                       Ev.checkpointLocal, Ev.checkpointRemote, Ev.upload] (t ++ tc)
                      (by rw [ht]; exact List.append_assoc _ _ _)
                      (keyFree_append hk hkc) (by decide) (by decide)
    · simp only [Option.isSome_some] at hb
      rw [if_neg (by simp)] at hb
      unfold syncMergePhase at hb
      simp only [emit] at hb
      rcases hei : env.ensureInitRes with m | u1 <;> rw [hei] at hb
      · have h2 := congrArg Prod.snd hb
        simp only at h2
        subst h2
        exact c1_claim_lift _ [Ev.digestLocalBefore, Ev.download, Ev.ensureInit]
          tc rfl hkc (by decide) (by decide)
      · simp only [Option.getD_some] at hb
        rcases hlb : env.localBytes0 with _ | lb <;> rw [hlb] at hb
        · have h2 := congrArg Prod.snd hb
          simp only at h2
          subst h2
          exact c1_claim_lift _ [Ev.digestLocalBefore, Ev.download, Ev.ensureInit]
            tc rfl hkc (by decide) (by decide)
        · rcases hmr : env.mergeRes with m | x <;> rw [hmr] at hb
          · have h2 := congrArg Prod.snd hb
            simp only at h2
            subst h2
            exact c1_claim_lift _
              [Ev.digestLocalBefore, Ev.download, Ev.ensureInit, Ev.merge]
              tc rfl hkc (by decide) (by decide)
          · rcases x with ⟨stats, newLocal, newRemote⟩
            simp only [emit, if_pos rfl, Option.isSome_some, if_true] at hb
            rcases hcl : env.checkpointLocalRes with m | u2 <;> rw [hcl] at hb
            · have h2 := congrArg Prod.snd hb
              simp only at h2
              subst h2
              exact c1_claim_lift _
                [Ev.digestLocalBefore, Ev.download, Ev.ensureInit, Ev.merge,
                 Ev.digestRemote, Ev.checkpointLocal] tc rfl hkc
                (by decide) (by decide)
            · rcases hcr : env.checkpointRemoteRes with m | u3 <;> rw [hcr] at hb
              · have h2 := congrArg Prod.snd hb
                simp only at h2
                subst h2
                exact c1_claim_lift _
                  [Ev.digestLocalBefore, Ev.download, Ev.ensureInit, Ev.merge,
                   Ev.digestRemote, Ev.checkpointLocal, Ev.checkpointRemote]
                  tc rfl hkc (by decide) (by decide)
              · simp only [emit] at hb
                rcases syncUploadPhase_trace _ _ _ _ _ _ _ _ _ hb with
                  ⟨t, ht, hk⟩ | ⟨t, ht, hk⟩
                · exact c1_claim_lift _
                    [Ev.digestLocalBefore, Ev.download, Ev.ensureInit, Ev.merge,
                     Ev.digestRemote, Ev.checkpointLocal, Ev.checkpointRemote]
                    (t ++ tc)
                    (by rw [ht]; exact List.append_assoc _ _ _)
                    (keyFree_append hk hkc) (by decide) (by decide)
                · exact c1_claim_lift _
                    [Ev.digestLocalBefore, Ev.download, Ev.ensureInit, Ev.merge,
                     Ev.digestRemote, Ev.checkpointLocal, Ev.checkpointRemote,
                     Ev.upload] (t ++ tc)
                    (by rw [ht]; exact List.append_assoc _ _ _)
                    (keyFree_append hk hkc) (by decide) (by decide)

/-- C9: in every call of sync that reaches the merge step — the fetch
succeeded, the call is not a pull against a missing remote, the remote store
initialized and the local store file exists — the merge collaborator is
invoked, for every direction value including PUSH; consequently on a
successful push-only call the local store's logical content is the merge's
local-side output, so local content can change even for a push-only
request. -/
theorem c9_merge_unconditional (dHash : List Nat → String) (env : Env)
    (direction : SyncDirection) (dl : Option (List Nat)) (lb : List Nat)
    (hdl : env.download = Except.ok dl)
    (hpull : direction = SyncDirection.pull → dl.isSome = true)
    (hei : env.ensureInitRes = Except.ok ())
    (hlb : env.localBytes0 = some lb) :
    Ev.merge ∈ (sync dHash env direction).2.trace
    ∧ (∀ (res : SyncResult) (st : St) (stats : MergeStats)
        (newLocal newRemote : List Nat),
        direction = SyncDirection.push →
        sync dHash env direction = (Except.ok res, st) →
        env.mergeRes = Except.ok (stats, newLocal, newRemote) →
        st.localLogical = newLocal) := by
  constructor
  · rcases hb : syncBody dHash env direction (fileDigest dHash env.localBytes0)
      (initialState env) with ⟨r2, st2⟩
    have hsync : (sync dHash env direction).2 = cleanup st2 := by
      unfold sync
      rw [hb]
    rw [hsync]
    obtain ⟨tc, htc, _⟩ := cleanup_trace st2
    rw [htc]
    unfold syncBody at hb
    rw [hdl] at hb
    simp only [emit, initialState] at hb
    rcases dl with _ | c
    · have hnp : ¬ direction = SyncDirection.pull := fun h => by simpa using hpull h
      simp only [Option.isSome_none] at hb
      rw [if_neg (by simp [hnp])] at hb
      unfold syncMergePhase at hb
      simp only [emit] at hb
      rw [hei] at hb
      simp only [Option.getD_none] at hb
      rw [hlb] at hb
      rcases hmr : env.mergeRes with m | x <;> rw [hmr] at hb
      · have h2 := congrArg Prod.snd hb
        simp only at h2
        subst h2
        refine List.mem_append_left _ ?_
        exact of_decide_eq_true rfl
      · rcases x with ⟨stats, newLocal, newRemote⟩
        simp only [emit, Bool.false_eq_true, if_false] at hb
        rcases hcl : env.checkpointLocalRes with m | u2 <;> rw [hcl] at hb
        · have h2 := congrArg Prod.snd hb
          simp only at h2
          subst h2
          refine List.mem_append_left _ ?_
          exact of_decide_eq_true rfl
        · rcases hcr : env.checkpointRemoteRes with m | u3 <;> rw [hcr] at hb
          · have h2 := congrArg Prod.snd hb
            simp only at h2
            subst h2
            refine List.mem_append_left _ ?_
            exact of_decide_eq_true rfl
          · simp only [emit] at hb
            rcases syncUploadPhase_trace _ _ _ _ _ _ _ _ _ hb with
              ⟨t, ht, _⟩ | ⟨t, ht, _⟩
            · rw [ht]
              refine List.mem_append_left _ (List.mem_append_left _ ?_)
              exact of_decide_eq_true rfl
            · rw [ht]
              refine List.mem_append_left _ (List.mem_append_left _ ?_)
              exact of_decide_eq_true rfl
    · simp only [Option.isSome_some] at hb
      rw [if_neg (by simp)] at hb
      unfold syncMergePhase at hb
      simp only [emit] at hb
      rw [hei] at hb
      simp only [Option.getD_some] at hb
      rw [hlb] at hb
      rcases hmr : env.mergeRes with m | x <;> rw [hmr] at hb
      · have h2 := congrArg Prod.snd hb
        simp only at h2
        subst h2
        refine List.mem_append_left _ ?_
        exact of_decide_eq_true rfl
      · rcases x with ⟨stats, newLocal, newRemote⟩
        simp only [emit, if_pos rfl, Option.isSome_some, if_true] at hb
        rcases hcl : env.checkpointLocalRes with m | u2 <;> rw [hcl] at hb
        · have h2 := congrArg Prod.snd hb
          simp only at h2
          subst h2
          refine List.mem_append_left _ ?_
          exact of_decide_eq_true rfl
        · rcases hcr : env.checkpointRemoteRes with m | u3 <;> rw [hcr] at hb
          · have h2 := congrArg Prod.snd hb
            simp only at h2
            subst h2
            refine List.mem_append_left _ ?_
            exact of_decide_eq_true rfl
          · simp only [emit] at hb
            rcases syncUploadPhase_trace _ _ _ _ _ _ _ _ _ hb with
              ⟨t, ht, _⟩ | ⟨t, ht, _⟩
            · rw [ht]
              refine List.mem_append_left _ (List.mem_append_left _ ?_)
              exact of_decide_eq_true rfl
            · rw [ht]
              refine List.mem_append_left _ (List.mem_append_left _ ?_)
              exact of_decide_eq_true rfl
  · intro res st stats newLocal newRemote hdir hrun hmerge
    obtain ⟨stats2, nl2, nr2, hmr2, _, _, _, _, _, _, hnfb, _, _⟩ :=
      sync_ok_char hrun
    rw [hmerge] at hmr2
    simp only [Except.ok.injEq, Prod.mk.injEq] at hmr2
    obtain ⟨h1, h2, h3⟩ := hmr2
    subst h1; subst h2; subst h3
    subst hdir
    refine (hnfb ?_).2
    intro hf
    rcases hf.2.1 with h | h <;> exact absurd h (by decide)

/-- C1 (counterexample): the claim as stated — both checkpoints strictly
before the post-merge digest and before any upload — is false on a concrete
successful BOTH-direction run against an existing remote: at sync.py line 65
the digest is taken before the checkpoints of lines 68-69. -/
theorem c1_counterexample :
    ¬ ((Ev.digestRemote ∈ (sync wHash envBoth SyncDirection.both).2.trace →
        comesBefore (sync wHash envBoth SyncDirection.both).2.trace
          Ev.checkpointLocal Ev.digestRemote = true
        ∧ comesBefore (sync wHash envBoth SyncDirection.both).2.trace
          Ev.checkpointRemote Ev.digestRemote = true)
      ∧ (Ev.upload ∈ (sync wHash envBoth SyncDirection.both).2.trace →
        comesBefore (sync wHash envBoth SyncDirection.both).2.trace
          Ev.checkpointLocal Ev.upload = true
        ∧ comesBefore (sync wHash envBoth SyncDirection.both).2.trace
          Ev.checkpointRemote Ev.upload = true)) := by
  decide

theorem c1_amended_witness :
    Ev.upload ∈ (sync wHash envBoth SyncDirection.both).2.trace
    ∧ (comesBefore (sync wHash envBoth SyncDirection.both).2.trace
        Ev.checkpointLocal Ev.upload = true
      ∧ comesBefore (sync wHash envBoth SyncDirection.both).2.trace
        Ev.checkpointRemote Ev.upload = true) :=
  ⟨by decide, (c1_amended wHash envBoth SyncDirection.both).1 (by decide)⟩

theorem c2_fallback_replace_witness :
    sync wHash envFallback SyncDirection.both = (Except.ok resFallback, outFallback.2)
    ∧ envFallback.mergeRes = Except.ok (⟨0, 0, 0, 0⟩, [1, 2], [3, 4])
    ∧ ((Ev.replaceLocal ∈ outFallback.2.trace ↔
        ((⟨0, 0, 0, 0⟩ : MergeStats).local_changes = 0
         ∧ (SyncDirection.both = SyncDirection.pull
            ∨ SyncDirection.both = SyncDirection.both)
         ∧ remoteExistsOf envFallback = true
         ∧ remoteDigestOf wHash envFallback ≠ none
         ∧ remoteDigestOf wHash envFallback ≠ localDigestBeforeOf wHash envFallback))
      ∧ (Ev.replaceLocal ∈ outFallback.2.trace →
          outFallback.2.localBytes = some [3, 4]
          ∧ outFallback.2.localLogical = [3, 4]
          ∧ Ev.checkpointAfterReplace ∈ outFallback.2.trace
          ∧ resFallback.downloaded = true)) :=
  ⟨rfl, rfl,
    c2_fallback_replace wHash envFallback SyncDirection.both resFallback
      outFallback.2 ⟨0, 0, 0, 0⟩ [1, 2] [3, 4] rfl rfl⟩

theorem c3_upload_decision_witness :
    sync wHash envBoth SyncDirection.both = (Except.ok resBoth, outBoth.2)
    ∧ envBoth.mergeRes = Except.ok (⟨1, 1, 2, 1⟩, [5, 6], [5, 6])
    ∧ ((resBoth.uploaded = true ↔
        ((SyncDirection.both = SyncDirection.push
          ∨ SyncDirection.both = SyncDirection.both)
         ∧ (0 < (⟨1, 1, 2, 1⟩ : MergeStats).remote_changes
            ∨ remoteExistsOf envBoth = false
            ∨ SyncDirection.both = SyncDirection.push)))
      ∧ (Ev.upload ∈ outBoth.2.trace ↔ resBoth.uploaded = true)
      ∧ (SyncDirection.both = SyncDirection.pull → resBoth.uploaded = false)
      ∧ (remoteExistsOf envBoth = false → SyncDirection.both ≠ SyncDirection.pull →
          resBoth.uploaded = true)) :=
  ⟨rfl, rfl,
    c3_upload_decision wHash envBoth SyncDirection.both resBoth outBoth.2
      ⟨1, 1, 2, 1⟩ [5, 6] [5, 6] rfl rfl⟩

theorem c4_pull_remote_missing_witness :
    envPull.download = Except.ok none
    ∧ ((sync wHash envPull SyncDirection.pull).1
        = Except.error Err.remoteMissingForPull
      ∧ (sync wHash envPull SyncDirection.pull).2.localBytes = envPull.localBytes0
      ∧ (sync wHash envPull SyncDirection.pull).2.localLogical = envPull.localLogical0
      ∧ (sync wHash envPull SyncDirection.pull).2.metadata = envPull.metadata0
      ∧ (sync wHash envPull SyncDirection.pull).2.workBytes = none
      ∧ (sync wHash envPull SyncDirection.pull).2.workDir = false) :=
  ⟨rfl, c4_pull_remote_missing wHash envPull rfl⟩

theorem c6_downloaded_flag_witness :
    sync wHash envBoth SyncDirection.both = (Except.ok resBoth, outBoth.2)
    ∧ envBoth.mergeRes = Except.ok (⟨1, 1, 2, 1⟩, [5, 6], [5, 6])
    ∧ ((0 < (⟨1, 1, 2, 1⟩ : MergeStats).local_changes → resBoth.downloaded = true)
      ∧ resBoth.downloaded = (decide (0 < (⟨1, 1, 2, 1⟩ : MergeStats).local_changes)
          || decide (Ev.replaceLocal ∈ outBoth.2.trace))) :=
  ⟨rfl, rfl,
    c6_downloaded_flag wHash envBoth SyncDirection.both resBoth outBoth.2
      ⟨1, 1, 2, 1⟩ [5, 6] [5, 6] rfl rfl⟩

theorem c7_sync_metadata_witness :
    sync wHash envBoth SyncDirection.both = (Except.ok resBoth, outBoth.2)
    ∧ (List.lookup "last_sync_at" outBoth.2.metadata
        = some (currentTimestamp envBoth)
      ∧ List.lookup "last_sync_direction" outBoth.2.metadata
        = some (if resBoth.uploaded = true then "upload"
                else if resBoth.downloaded = true then "download" else "noop")) :=
  ⟨rfl,
    c7_sync_metadata wHash envBoth SyncDirection.both resBoth outBoth.2 rfl⟩

theorem c8_format_message_witness :
    (⟨0, 0, 0, 0⟩ : MergeStats).notes_merged = 0
    ∧ (⟨0, 0, 0, 0⟩ : MergeStats).notes_deleted = 0
    ∧ formatMessage ⟨0, 0, 0, 0⟩ false false = "No changes detected" :=
  ⟨rfl, rfl, c8_format_message.2.2.2 ⟨0, 0, 0, 0⟩ rfl rfl⟩

theorem c9_merge_unconditional_witness :
    envBoth.download = Except.ok (some [3, 4])
    ∧ (SyncDirection.push = SyncDirection.pull → (some [3, 4]).isSome = true)
    ∧ envBoth.ensureInitRes = Except.ok ()
    ∧ envBoth.localBytes0 = some [1, 2]
    ∧ (Ev.merge ∈ (sync wHash envBoth SyncDirection.push).2.trace
      ∧ (∀ (res : SyncResult) (st : St) (stats : MergeStats)
          (newLocal newRemote : List Nat),
          SyncDirection.push = SyncDirection.push →
          sync wHash envBoth SyncDirection.push = (Except.ok res, st) →
          envBoth.mergeRes = Except.ok (stats, newLocal, newRemote) →
          st.localLogical = newLocal)) :=
  ⟨rfl, by decide, rfl, rfl,
    c9_merge_unconditional wHash envBoth SyncDirection.push (some [3, 4]) [1, 2]
      rfl (by decide) rfl rfl⟩

end Notr

